import Mathlib

/-!
# antfs.h — verification development

Shallow embedding of the definitions of `antfs.h` (the ANTFS kernel driver's
central header) together with the properties stated about them.

Conventions of the embedding:

* an `unsigned long` / `size_t` / pointer value is a natural number below `2 ^ w`,
  where `w` is the machine word width (`BITS_PER_LONG`); arithmetic wraps explicitly;
* quantities that the header takes from other headers (`BITS_PER_LONG`,
  `BH_PrivateStart`, the sizes and alignments of `struct inode`, `struct ntfs_inode`
  and `struct ntfs_attr`) are parameters.
-/

namespace Antfs

/-! ## Machine words -/

/-- Wrapping addition of two `w`-bit unsigned words. -/
def wadd (w a b : Nat) : Nat := (a + b) % 2 ^ w

/-- Wrapping subtraction of two `w`-bit unsigned words. -/
def wsub (w a b : Nat) : Nat := (a + 2 ^ w - b % 2 ^ w) % 2 ^ w

/-- Bitwise complement `~x` of a `w`-bit unsigned word. -/
def wnot (w x : Nat) : Nat := (2 ^ w - 1) ^^^ x

/-! ## Constants of antfs.h -/

/-- Constant `#define RESERVED_MFT_RECORDS 24` (antfs.h:159). -/
def RESERVED_MFT_RECORDS : Nat := 24

/-- Constant `#define MFT_DATA_BURST_ALLOC_SHIFT 7` (antfs.h:166). -/
def MFT_DATA_BURST_ALLOC_SHIFT : Nat := 7

/-- The value of `sizeof(__u64)`: a `__u64` is eight bytes. -/
def sizeof_u64 : Nat := 8

/-- Macro `#define ANTFS_DIRENT_ALIGN(x) (((x) + sizeof(__u64) - 1) & ~(sizeof(__u64) - 1))`
(antfs.h:172), evaluated in `w`-bit unsigned arithmetic. -/
def ANTFS_DIRENT_ALIGN (w x : Nat) : Nat :=
  wsub w (wadd w x sizeof_u64) 1 &&& wnot w (wsub w sizeof_u64 1)

/-! ## Buffer state bits (antfs.h:180-186) -/

/-- Parameters taken from the kernel headers: the width of `unsigned long` and the
number of the first buffer-state bit left to filesystems (`BH_PrivateStart`, the last
enumerator of the kernel's `enum bh_state_bits`). -/
structure KernelConfig where
  BITS_PER_LONG : Nat
  BH_PrivateStart : Nat
  deriving Repr, DecidableEq

/-- The part of `struct buffer_head` the tag functions touch: the state word. -/
structure buffer_head where
  b_state : Nat
  deriving Repr, DecidableEq

/-- Enumerator `BH_Zeronew = BH_PrivateStart` of `enum antfs_bh_state_bits`
(antfs.h:180-183). -/
def BH_Zeronew (K : KernelConfig) : Nat := K.BH_PrivateStart

/-- Kernel `BIT_MASK(nr)`: `1UL << (nr % BITS_PER_LONG)`. -/
def BIT_MASK (K : KernelConfig) (nr : Nat) : Nat := 1 <<< (nr % K.BITS_PER_LONG)

/-- Kernel `set_bit(nr, addr)` on one word: `*addr |= mask`. -/
def set_bit (K : KernelConfig) (nr word : Nat) : Nat := word ||| BIT_MASK K nr

/-- Kernel `clear_bit(nr, addr)` on one word: `*addr &= ~mask`. -/
def clear_bit (K : KernelConfig) (nr word : Nat) : Nat :=
  word &&& wnot K.BITS_PER_LONG (BIT_MASK K nr)

/-- Kernel `test_bit(nr, addr)` on one word: `1UL & (*addr >> (nr % BITS_PER_LONG))`. -/
def test_bit (K : KernelConfig) (nr word : Nat) : Bool :=
  (1 &&& (word >>> (nr % K.BITS_PER_LONG))) != 0

/-- Kernel `test_and_set_bit(nr, addr)` on one word: returns `(old & mask) != 0` and
stores `old | mask`. -/
def test_and_set_bit (K : KernelConfig) (nr word : Nat) : Bool × Nat :=
  ((word &&& BIT_MASK K nr) != 0, word ||| BIT_MASK K nr)

/-- Kernel `test_and_clear_bit(nr, addr)` on one word: returns `(old & mask) != 0` and
stores `old & ~mask`. -/
def test_and_clear_bit (K : KernelConfig) (nr word : Nat) : Bool × Nat :=
  ((word &&& BIT_MASK K nr) != 0, word &&& wnot K.BITS_PER_LONG (BIT_MASK K nr))

/-- Expansion of `BUFFER_FNS(Zeronew, zeronew)` (antfs.h:185; the macro body is the
kernel's, in linux/buffer_head.h), first function:
`set_buffer_zeronew(bh)` is `set_bit(BH_Zeronew, &bh->b_state)`. -/
def set_buffer_zeronew (K : KernelConfig) (bh : buffer_head) : buffer_head :=
  { bh with b_state := set_bit K (BH_Zeronew K) bh.b_state }

/-- Expansion of `BUFFER_FNS(Zeronew, zeronew)`, second function:
`clear_buffer_zeronew(bh)` is `clear_bit(BH_Zeronew, &bh->b_state)`. -/
def clear_buffer_zeronew (K : KernelConfig) (bh : buffer_head) : buffer_head :=
  { bh with b_state := clear_bit K (BH_Zeronew K) bh.b_state }

/-- Expansion of `BUFFER_FNS(Zeronew, zeronew)`, third function:
`buffer_zeronew(bh)` is `test_bit(BH_Zeronew, &bh->b_state)`; the buffer is returned
alongside the answer so that its being untouched can be stated. -/
def buffer_zeronew (K : KernelConfig) (bh : buffer_head) : Bool × buffer_head :=
  (test_bit K (BH_Zeronew K) bh.b_state, bh)

/-- Expansion of `TAS_BUFFER_FNS(Zeronew, zeronew)` (antfs.h:186; the macro body is the
kernel's, in linux/buffer_head.h), first function:
`test_set_buffer_zeronew(bh)` is `test_and_set_bit(BH_Zeronew, &bh->b_state)`. -/
def test_set_buffer_zeronew (K : KernelConfig) (bh : buffer_head) : Bool × buffer_head :=
  ((test_and_set_bit K (BH_Zeronew K) bh.b_state).1,
   { bh with b_state := (test_and_set_bit K (BH_Zeronew K) bh.b_state).2 })

/-- Expansion of `TAS_BUFFER_FNS(Zeronew, zeronew)`, second function:
`test_clear_buffer_zeronew(bh)` is `test_and_clear_bit(BH_Zeronew, &bh->b_state)`. -/
def test_clear_buffer_zeronew (K : KernelConfig) (bh : buffer_head) : Bool × buffer_head :=
  ((test_and_clear_bit K (BH_Zeronew K) bh.b_state).1,
   { bh with b_state := (test_and_clear_bit K (BH_Zeronew K) bh.b_state).2 })

/-- One operation on a buffer's state word: the five Zeronew functions, and the
framework's own `set_bit` / `clear_bit` on a state bit `k` (for instance dirtying the
buffer again sets `BH_Dirty`). -/
inductive bh_op where
  | set_zeronew
  | clear_zeronew
  | test_zeronew
  | test_set_zeronew
  | test_clear_zeronew
  | set_framework_bit (k : Nat)
  | clear_framework_bit (k : Nat)
  deriving Repr, DecidableEq

/-- Effect of one operation: the value it returns, if any, and the buffer afterwards. -/
def bh_step (K : KernelConfig) : bh_op → buffer_head → Option Bool × buffer_head
  | .set_zeronew, bh => (none, set_buffer_zeronew K bh)
  | .clear_zeronew, bh => (none, clear_buffer_zeronew K bh)
  | .test_zeronew, bh => (some (buffer_zeronew K bh).1, (buffer_zeronew K bh).2)
  | .test_set_zeronew, bh =>
      (some (test_set_buffer_zeronew K bh).1, (test_set_buffer_zeronew K bh).2)
  | .test_clear_zeronew, bh =>
      (some (test_clear_buffer_zeronew K bh).1, (test_clear_buffer_zeronew K bh).2)
  | .set_framework_bit k, bh => (none, { bh with b_state := set_bit K k bh.b_state })
  | .clear_framework_bit k, bh => (none, { bh with b_state := clear_bit K k bh.b_state })

/-- The answers of the `test_clear_buffer_zeronew` calls met while running `ops` on
`bh`, in order. -/
def test_clear_results (K : KernelConfig) : List bh_op → buffer_head → List Bool
  | [], _ => []
  | .test_clear_zeronew :: ops, bh =>
      (test_clear_buffer_zeronew K bh).1 ::
        test_clear_results K ops (test_clear_buffer_zeronew K bh).2
  | o :: ops, bh => test_clear_results K ops (bh_step K o bh).2

/-- Number of zero-fills performed when every `test_clear_buffer_zeronew` of `ops`
guards one zero-fill (`if (test_clear_buffer_zeronew(bh)) zero the block`). -/
def zero_fills (K : KernelConfig) (ops : List bh_op) (bh : buffer_head) : Nat :=
  (test_clear_results K ops bh).count true

/-- An operation that does not tag the buffer again: neither `set_buffer_zeronew` nor
`test_set_buffer_zeronew`, and a framework bit operation only on a framework bit
(numbered below `BH_PrivateStart`). -/
def keeps_untagged (K : KernelConfig) : bh_op → Bool
  | .set_zeronew => false
  | .test_set_zeronew => false
  | .set_framework_bit k => decide (k < K.BH_PrivateStart)
  | .clear_framework_bit k => decide (k < K.BH_PrivateStart)
  | _ => true

/-! ## Lock classes (antfs.h:196-209) -/

/-- The type `enum antfs_inode_mutex_lock_class` (antfs.h:205-209). -/
inductive antfs_inode_mutex_lock_class where
  | NI_MUTEX_NORMAL
  | NI_MUTEX_PARENT
  | NI_MUTEX_PARENT2
  deriving Repr, DecidableEq

/-- The integer value C gives each enumerator: no initialiser, so they count up from 0
in declaration order. -/
def antfs_inode_mutex_lock_class.val : antfs_inode_mutex_lock_class → Nat
  | .NI_MUTEX_NORMAL => 0
  | .NI_MUTEX_PARENT => 1
  | .NI_MUTEX_PARENT2 => 2

/-- The locking order written in the header's comment (antfs.h:203):
"Locking order is normal -> parent -> parent2". -/
def locking_order : List antfs_inode_mutex_lock_class :=
  [.NI_MUTEX_NORMAL, .NI_MUTEX_PARENT, .NI_MUTEX_PARENT2]

/-- Whether `a` comes strictly before `b` in the documented locking order. -/
def locked_before (a b : antfs_inode_mutex_lock_class) : Bool :=
  decide (locking_order.indexOf a < locking_order.indexOf b)

/-! ## The combined inode allocation (antfs.h:241-265) -/

/-- Sizes and alignments of the three member types of `struct antfs_inode_info`.
`struct inode` comes from `linux/fs.h`, `struct ntfs_inode` and `struct ntfs_attr` from
`inode.h`; none of them is declared in antfs.h, so they are parameters. -/
structure Layout where
  sizeof_inode : Nat
  alignof_inode : Nat
  sizeof_ntfs_inode : Nat
  alignof_ntfs_inode : Nat
  sizeof_ntfs_attr : Nat
  alignof_ntfs_attr : Nat
  deriving Repr, DecidableEq

/-- Least multiple of `a` that is at least `x`: where C places a member of alignment
`a` after `x` bytes. -/
def round_up (x a : Nat) : Nat := (x + a - 1) / a * a

/-- Offset `offsetof(struct antfs_inode_info, inode)`: `inode` is the first member. -/
def offsetof_inode (_L : Layout) : Nat := 0

/-- Offset `offsetof(struct antfs_inode_info, ni)`: `ni` follows `inode`. -/
def offsetof_ni (L : Layout) : Nat :=
  round_up (offsetof_inode L + L.sizeof_inode) L.alignof_ntfs_inode

/-- Offset `offsetof(struct antfs_inode_info, na)`: `na` follows `ni`. -/
def offsetof_na (L : Layout) : Nat :=
  round_up (offsetof_ni L + L.sizeof_ntfs_inode) L.alignof_ntfs_attr

/-- Kernel `container_of(ptr, type, member)`:
`(type *)((char *)ptr - offsetof(type, member))`, on `w`-bit addresses. -/
def container_of (w ptr offset : Nat) : Nat := wsub w ptr offset

/-- Address of a member, `&(p->member)`: the address `p` plus the member's offset. -/
def member_addr (w p offset : Nat) : Nat := wadd w p offset

/-- Accessor `ANTFS_NI` (antfs.h:252-255):
`&(container_of(inode, struct antfs_inode_info, inode)->ni)`. -/
def ANTFS_NI (w : Nat) (L : Layout) (inode : Nat) : Nat :=
  member_addr w (container_of w inode (offsetof_inode L)) (offsetof_ni L)

/-- Accessor `ANTFS_I` (antfs.h:257-260):
`&(container_of(ni, struct antfs_inode_info, ni)->inode)`. -/
def ANTFS_I (w : Nat) (L : Layout) (ni : Nat) : Nat :=
  member_addr w (container_of w ni (offsetof_ni L)) (offsetof_inode L)

/-- Accessor `ANTFS_NA` (antfs.h:262-265):
`&(container_of(ni, struct antfs_inode_info, ni)->na)`. -/
def ANTFS_NA (w : Nat) (L : Layout) (ni : Nat) : Nat :=
  member_addr w (container_of w ni (offsetof_ni L)) (offsetof_na L)

/-- The generic view `&u->inode` of the combined allocation at address `u`. -/
def inode_view (w : Nat) (L : Layout) (u : Nat) : Nat := member_addr w u (offsetof_inode L)

/-- The format-inode view `&u->ni` of the combined allocation at address `u`. -/
def ni_view (w : Nat) (L : Layout) (u : Nat) : Nat := member_addr w u (offsetof_ni L)

/-- The default-attribute view `&u->na` of the combined allocation at address `u`. -/
def na_view (w : Nat) (L : Layout) (u : Nat) : Nat := member_addr w u (offsetof_na L)

/-! ## Record allocator

antfs.h only fixes the two policy constants `RESERVED_MFT_RECORDS` and
`MFT_DATA_BURST_ALLOC_SHIFT`; the allocator that uses them is defined in another file
of the driver, outside antfs.h. -/

/-- Modelled from the spec: the failure `MetadataExhausted` of the record allocator
(defined outside antfs.h). -/
inductive alloc_error where
  | MetadataExhausted
  deriving Repr, DecidableEq

/-- Modelled from the spec: `extend_metadata(current_record_count) -> new_record_count`
(the driver's MFT `$DATA` extension, defined outside antfs.h). "Each extension request rounds
the additional space up to `1 << BURST_SHIFT` records"; "if a burst extension cannot be
satisfied ... the allocator fails with `MetadataExhausted`", never retrying with a
smaller burst. `capacity` is the largest record count the volume can hold when the
call is made. -/
def extend_metadata (capacity current_record_count : Nat) : Except alloc_error Nat :=
  if current_record_count + (1 <<< MFT_DATA_BURST_ALLOC_SHIFT) ≤ capacity then
    .ok (current_record_count + (1 <<< MFT_DATA_BURST_ALLOC_SHIFT))
  else
    .error .MetadataExhausted

/-- Record count after one `extend_metadata` call: the new count, or the old one when
the call failed. -/
def record_count_after (capacity current_record_count : Nat) : Nat :=
  match extend_metadata capacity current_record_count with
  | .ok n => n
  | .error _ => current_record_count

/-- Record counts after each call of a sequence of `extend_metadata` calls, one call
per element of `capacities`, starting from `count`. -/
def extend_trace : List Nat → Nat → List Nat
  | [], _ => []
  | capacity :: rest, count =>
      record_count_after capacity count :: extend_trace rest (record_count_after capacity count)

/-- Modelled from the spec: the state of the record allocator (defined outside
antfs.h): the
free-record bitmap (`true` = record in use), whose length is the record count, and the
position at which the next first-fit search starts. -/
structure mft_state where
  bitmap : List Bool
  data_pos : Nat
  deriving Repr, DecidableEq

/-- Modelled from the spec: the first-fit search of the record allocator (defined
outside antfs.h): the first free record of `bitmap` in the range `lo ≤ r < hi`, if
any. -/
def find_free (bitmap : List Bool) (lo hi : Nat) : Option Nat :=
  (List.range' lo (hi - lo)).find? (fun r => bitmap.getD r true == false)

/-- Modelled from the spec: handing out record `r` (allocator defined outside antfs.h):
mark it in use and move the search position past it. -/
def take_record (s : mft_state) (r : Nat) : mft_state :=
  { bitmap := s.bitmap.set r true, data_pos := r + 1 }

/-- Modelled from the spec: creation of a record for a user-visible entity (the
driver's MFT record allocation, defined outside antfs.h). "Allocation of new records for
user-visible entities begins at RESERVED_COUNT and proceeds by first-fit over a
free-record bitmap, wrapping to reuse freed records (created by deletions) before
extending." The search runs from the current position to the end of the bitmap, then
wraps to `RESERVED_MFT_RECORDS` and runs up to the current position, and only then
extends the table by a burst and searches the extended bitmap. -/
def create_record (capacity : Nat) (s : mft_state) : Except alloc_error (Nat × mft_state) :=
  match find_free s.bitmap s.data_pos s.bitmap.length with
  | some r => .ok (r, take_record s r)
  | none =>
    match find_free s.bitmap RESERVED_MFT_RECORDS s.data_pos with
    | some r => .ok (r, take_record s r)
    | none =>
      match extend_metadata capacity s.bitmap.length with
      | .error e => .error e
      | .ok n =>
        let grown : mft_state :=
          { s with bitmap := s.bitmap ++ List.replicate (n - s.bitmap.length) false }
        match find_free grown.bitmap RESERVED_MFT_RECORDS n with
        | some r => .ok (r, take_record grown r)
        | none => .error .MetadataExhausted

/-- Modelled from the spec: deletion of record `r` (defined outside antfs.h) frees its
bit in the bitmap ("freed records (created by deletions)"). -/
def delete_record (s : mft_state) (r : Nat) : mft_state :=
  { s with bitmap := s.bitmap.set r false }

/-- Modelled from the spec: the allocator state at mount time (set up outside
antfs.h), with the bitmap read from the volume; allocation "begins at RESERVED_COUNT". -/
def mft_mount (bitmap : List Bool) : mft_state :=
  { bitmap := bitmap, data_pos := RESERVED_MFT_RECORDS }

/-- A request to the record allocator: a user creation (with the volume's capacity at
that moment) or a deletion. -/
inductive mft_op where
  | create (capacity : Nat)
  | delete (r : Nat)
  deriving Repr, DecidableEq

/-- The record numbers handed out by the creations of a sequence of requests, in
order; a failed creation hands out nothing and leaves the state as it was. -/
def mft_run : List mft_op → mft_state → List Nat
  | [], _ => []
  | .create capacity :: ops, s =>
      match create_record capacity s with
      | .ok (r, s') => r :: mft_run ops s'
      | .error _ => mft_run ops s
  | .delete r :: ops, s => mft_run ops (delete_record s r)

/-! ## Bit-level lemmas -/

theorem mask_test (s p : Nat) : ((s &&& 1 <<< p) != 0) = s.testBit p := by
  rw [Nat.one_shiftLeft, Nat.and_two_pow]
  cases h : s.testBit p <;> simp [Nat.pos_pow_of_pos]

theorem testBit_or_mask (s p k : Nat) :
    (s ||| 1 <<< p).testBit k = (s.testBit k || decide (p = k)) := by
  rw [Nat.testBit_or, Nat.one_shiftLeft, Nat.testBit_two_pow]

theorem testBit_and_not_mask (w s p k : Nat) (hk : k < w) :
    (s &&& wnot w (1 <<< p)).testBit k = (s.testBit k && !decide (p = k)) := by
  unfold wnot
  rw [Nat.testBit_and, Nat.testBit_xor, Nat.testBit_two_pow_sub_one, Nat.one_shiftLeft,
    Nat.testBit_two_pow]
  simp [hk]

theorem test_bit_eq (K : KernelConfig) (p s : Nat) (hp : p < K.BITS_PER_LONG) :
    test_bit K p s = s.testBit p := by
  unfold test_bit
  rw [Nat.mod_eq_of_lt hp]
  rfl

theorem BIT_MASK_eq (K : KernelConfig) (p : Nat) (hp : p < K.BITS_PER_LONG) :
    BIT_MASK K p = 1 <<< p := by
  unfold BIT_MASK
  rw [Nat.mod_eq_of_lt hp]

/-! ## Directory-entry alignment -/

theorem wnot_seven_and (w y : Nat) (hw : 3 ≤ w) (hy : y < 2 ^ w) :
    y &&& wnot w 7 = y / 8 * 8 := by
  have h7 : (7 : Nat) = 2 ^ 3 - 1 := by norm_num
  have h8 : y / 8 * 8 = (y >>> 3) <<< 3 := by
    rw [Nat.shiftLeft_eq, Nat.shiftRight_eq_div_pow]
  rw [h8]
  apply Nat.eq_of_testBit_eq
  intro i
  unfold wnot
  rw [Nat.testBit_and, Nat.testBit_xor, Nat.testBit_two_pow_sub_one, h7,
    Nat.testBit_two_pow_sub_one, Nat.testBit_shiftLeft, Nat.testBit_shiftRight]
  by_cases hi3 : i < 3
  · have hiw : i < w := by omega
    simp [hi3, hiw]
  · by_cases hiw : i < w
    · have e : 3 + (i - 3) = i := by omega
      have hge : 3 ≤ i := by omega
      simp [hi3, hiw, e, hge]
    · have hle : 2 ^ w ≤ 2 ^ i := Nat.pow_le_pow_right (by norm_num) (by omega)
      have hb : y.testBit i = false := Nat.testBit_lt_two_pow (lt_of_lt_of_le hy hle)
      have e : 3 + (i - 3) = i := by omega
      simp [hb, e]

theorem dirent_align_eq (w x : Nat) (h : x + 7 < 2 ^ w) :
    ANTFS_DIRENT_ALIGN w x = (x + 7) / 8 * 8 := by
  have hw : 3 ≤ w := by
    by_contra hc
    have : 2 ^ w ≤ 2 ^ 2 := Nat.pow_le_pow_right (by norm_num) (by omega)
    omega
  have h8 : (8 : Nat) ≤ 2 ^ w := by
    calc (8 : Nat) = 2 ^ 3 := by norm_num
      _ ≤ 2 ^ w := Nat.pow_le_pow_right (by norm_num) hw
  have hone : 1 % 2 ^ w = 1 := Nat.mod_eq_of_lt (by omega)
  have hmask : wsub w sizeof_u64 1 = 7 := by
    unfold wsub sizeof_u64
    rw [hone]
    have : 8 + 2 ^ w - 1 = 7 + 2 ^ w := by omega
    rw [this, Nat.add_mod_right, Nat.mod_eq_of_lt (by omega)]
  have hsum : wsub w (wadd w x sizeof_u64) 1 = x + 7 := by
    unfold wsub wadd sizeof_u64
    rw [hone]
    by_cases hx : x + 8 < 2 ^ w
    · rw [Nat.mod_eq_of_lt hx]
      have : x + 8 + 2 ^ w - 1 = x + 7 + 2 ^ w := by omega
      rw [this, Nat.add_mod_right, Nat.mod_eq_of_lt h]
    · have hx8 : x + 8 = 2 ^ w := by omega
      rw [hx8, Nat.mod_self]
      have : 0 + 2 ^ w - 1 = x + 7 := by omega
      rw [this, Nat.mod_eq_of_lt h]
  unfold ANTFS_DIRENT_ALIGN
  rw [hmask, hsum]
  exact wnot_seven_and w (x + 7) hw h

/-- C9: for every unsigned `w`-bit value `x` with `x + 7` not overflowing the word,
`ANTFS_DIRENT_ALIGN(x)` is the least multiple of `sizeof(__u64)` = 8 that is at least
`x`; in particular `x ≤ ANTFS_DIRENT_ALIGN(x) < x + 8`, and the value is `x` exactly
when `x` is a multiple of 8. -/
theorem dirent_align_least_multiple (w x : Nat) (h : x + 7 < 2 ^ w) :
    sizeof_u64 = 8 ∧
    sizeof_u64 ∣ ANTFS_DIRENT_ALIGN w x ∧
    x ≤ ANTFS_DIRENT_ALIGN w x ∧
    (∀ m, sizeof_u64 ∣ m → x ≤ m → ANTFS_DIRENT_ALIGN w x ≤ m) ∧
    ANTFS_DIRENT_ALIGN w x < x + 8 ∧
    (ANTFS_DIRENT_ALIGN w x = x ↔ sizeof_u64 ∣ x) := by
  rw [dirent_align_eq w x h]
  simp only [sizeof_u64]
  refine ⟨trivial, ⟨(x + 7) / 8, by omega⟩, by omega, ?_, by omega, ?_⟩
  · rintro m ⟨k, rfl⟩ hxm
    omega
  · constructor
    · intro e
      exact ⟨(x + 7) / 8, by omega⟩
    · rintro ⟨k, rfl⟩
      omega

/-- Witness for C9 on a 64-bit word at `x = 13`: the aligned value is 16. -/
theorem dirent_align_least_multiple_witness :
    13 + 7 < 2 ^ 64 ∧ ANTFS_DIRENT_ALIGN 64 13 = 16 ∧
    (sizeof_u64 = 8 ∧
     sizeof_u64 ∣ ANTFS_DIRENT_ALIGN 64 13 ∧
     13 ≤ ANTFS_DIRENT_ALIGN 64 13 ∧
     (∀ m, sizeof_u64 ∣ m → 13 ≤ m → ANTFS_DIRENT_ALIGN 64 13 ≤ m) ∧
     ANTFS_DIRENT_ALIGN 64 13 < 13 + 8 ∧
     (ANTFS_DIRENT_ALIGN 64 13 = 13 ↔ sizeof_u64 ∣ 13)) :=
  ⟨by norm_num, by decide, dirent_align_least_multiple 64 13 (by norm_num)⟩

/-! ## The Zeronew tag -/

theorem set_bit_testBit (K : KernelConfig) (p s k : Nat) (hp : p < K.BITS_PER_LONG) :
    (set_bit K p s).testBit k = (s.testBit k || decide (p = k)) := by
  unfold set_bit
  rw [BIT_MASK_eq K p hp, testBit_or_mask]

theorem clear_bit_testBit (K : KernelConfig) (p s k : Nat) (hp : p < K.BITS_PER_LONG)
    (hk : k < K.BITS_PER_LONG) :
    (clear_bit K p s).testBit k = (s.testBit k && !decide (p = k)) := by
  unfold clear_bit
  rw [BIT_MASK_eq K p hp, testBit_and_not_mask _ _ _ _ hk]

theorem test_and_set_bit_fst (K : KernelConfig) (p s : Nat) (hp : p < K.BITS_PER_LONG) :
    (test_and_set_bit K p s).1 = s.testBit p := by
  unfold test_and_set_bit
  rw [BIT_MASK_eq K p hp]
  exact mask_test s p

theorem test_and_clear_bit_fst (K : KernelConfig) (p s : Nat) (hp : p < K.BITS_PER_LONG) :
    (test_and_clear_bit K p s).1 = s.testBit p := by
  unfold test_and_clear_bit
  rw [BIT_MASK_eq K p hp]
  exact mask_test s p

theorem test_and_set_bit_snd (K : KernelConfig) (p s : Nat) :
    (test_and_set_bit K p s).2 = set_bit K p s := rfl

theorem test_and_clear_bit_snd (K : KernelConfig) (p s : Nat) :
    (test_and_clear_bit K p s).2 = clear_bit K p s := rfl

/-- Running an operation that does not tag the buffer keeps an untagged buffer
untagged. -/
theorem bh_step_untagged (K : KernelConfig) (o : bh_op) (bh : buffer_head)
    (hbit : K.BH_PrivateStart < K.BITS_PER_LONG) (ho : keeps_untagged K o = true)
    (hclear : bh.b_state.testBit (BH_Zeronew K) = false) :
    (bh_step K o bh).2.b_state.testBit (BH_Zeronew K) = false := by
  have hz : BH_Zeronew K < K.BITS_PER_LONG := hbit
  cases o with
  | set_zeronew => simp [keeps_untagged] at ho
  | test_set_zeronew => simp [keeps_untagged] at ho
  | clear_zeronew =>
    simp only [bh_step, clear_buffer_zeronew]
    rw [clear_bit_testBit K _ _ _ hz hz, hclear]
    rfl
  | test_zeronew => simpa [bh_step, buffer_zeronew] using hclear
  | test_clear_zeronew =>
    simp only [bh_step, test_clear_buffer_zeronew, test_and_clear_bit_snd]
    rw [clear_bit_testBit K _ _ _ hz hz, hclear]
    rfl
  | set_framework_bit k =>
    have hk : k < K.BH_PrivateStart := by simpa [keeps_untagged] using ho
    have hkw : k < K.BITS_PER_LONG := lt_trans hk hbit
    have hne : ¬ k = BH_Zeronew K := by unfold BH_Zeronew; omega
    simp only [bh_step]
    rw [set_bit_testBit K _ _ _ hkw, hclear]
    simp [hne]
  | clear_framework_bit k =>
    have hk : k < K.BH_PrivateStart := by simpa [keeps_untagged] using ho
    have hkw : k < K.BITS_PER_LONG := lt_trans hk hbit
    simp only [bh_step]
    rw [clear_bit_testBit K _ _ _ hkw hz, hclear]
    rfl

/-- On an untagged buffer every `test_clear_buffer_zeronew` of a sequence that does not
tag it again answers false. -/
theorem test_clear_results_untagged (K : KernelConfig)
    (hbit : K.BH_PrivateStart < K.BITS_PER_LONG) :
    ∀ (ops : List bh_op) (bh : buffer_head),
      (∀ o ∈ ops, keeps_untagged K o = true) →
      bh.b_state.testBit (BH_Zeronew K) = false →
      ∀ r ∈ test_clear_results K ops bh, r = false := by
  intro ops
  induction ops with
  | nil => intro bh _ _ r hr; simp [test_clear_results] at hr
  | cons o ops ih =>
    intro bh hops hclear r hr
    have ho : keeps_untagged K o = true := hops o (List.mem_cons_self _ _)
    have hrest : ∀ o' ∈ ops, keeps_untagged K o' = true :=
      fun o' h' => hops o' (List.mem_cons_of_mem _ h')
    have hnext := bh_step_untagged K o bh hbit ho hclear
    cases o with
    | test_clear_zeronew =>
      simp only [test_clear_results, List.mem_cons] at hr
      rcases hr with hr | hr
      · rw [hr]
        simp only [test_clear_buffer_zeronew]
        rw [test_and_clear_bit_fst K (BH_Zeronew K) _ hbit]
        exact hclear
      · exact ih _ hrest hnext r hr
    | set_zeronew => exact ih _ hrest hnext r (by simpa [test_clear_results] using hr)
    | clear_zeronew => exact ih _ hrest hnext r (by simpa [test_clear_results] using hr)
    | test_zeronew => exact ih _ hrest hnext r (by simpa [test_clear_results] using hr)
    | test_set_zeronew => exact ih _ hrest hnext r (by simpa [test_clear_results] using hr)
    | set_framework_bit k =>
      exact ih _ hrest hnext r (by simpa [test_clear_results] using hr)
    | clear_framework_bit k =>
      exact ih _ hrest hnext r (by simpa [test_clear_results] using hr)

theorem count_true_eq_zero (l : List Bool) (h : ∀ r ∈ l, r = false) : l.count true = 0 := by
  rw [List.count_eq_zero]
  intro hmem
  exact Bool.noConfusion (h true hmem)

/-- C4: the Zeronew hole tag is consumed exactly once. After `set_buffer_zeronew` the
first `test_clear_buffer_zeronew` returns true and leaves `buffer_zeronew` false; every
further `test_clear_buffer_zeronew` in a sequence of operations containing no
`set_buffer_zeronew` / `test_set_buffer_zeronew` returns false (also when the buffer is
dirtied again in between); so a zero-fill guarded by the test-and-clear runs exactly
once per tagging. -/
theorem zeronew_consumed_once (K : KernelConfig) (bh : buffer_head) (ops : List bh_op)
    (hbit : K.BH_PrivateStart < K.BITS_PER_LONG)
    (hops : ∀ o ∈ ops, keeps_untagged K o = true) :
    (buffer_zeronew K (set_buffer_zeronew K bh)).1 = true ∧
    (test_clear_buffer_zeronew K (set_buffer_zeronew K bh)).1 = true ∧
    (buffer_zeronew K (test_clear_buffer_zeronew K (set_buffer_zeronew K bh)).2).1 = false ∧
    (∀ r ∈ test_clear_results K ops (test_clear_buffer_zeronew K (set_buffer_zeronew K bh)).2,
      r = false) ∧
    zero_fills K (bh_op.test_clear_zeronew :: ops) (set_buffer_zeronew K bh) = 1 := by
  have hz : BH_Zeronew K < K.BITS_PER_LONG := hbit
  have hset : (set_buffer_zeronew K bh).b_state.testBit (BH_Zeronew K) = true := by
    simp only [set_buffer_zeronew]
    rw [set_bit_testBit K _ _ _ hz]
    simp
  have htac : (test_clear_buffer_zeronew K (set_buffer_zeronew K bh)).1 = true := by
    simp only [test_clear_buffer_zeronew]
    rw [test_and_clear_bit_fst K _ _ hz]
    exact hset
  have hafter : (test_clear_buffer_zeronew K (set_buffer_zeronew K bh)).2.b_state.testBit
      (BH_Zeronew K) = false := by
    simp only [test_clear_buffer_zeronew, test_and_clear_bit_snd]
    rw [clear_bit_testBit K _ _ _ hz hz]
    simp
  have hrest := test_clear_results_untagged K hbit ops _ hops hafter
  refine ⟨?_, htac, ?_, hrest, ?_⟩
  · simp only [buffer_zeronew]
    rw [test_bit_eq K _ _ hz]
    exact hset
  · simp only [buffer_zeronew]
    rw [test_bit_eq K _ _ hz]
    exact hafter
  · simp only [zero_fills, test_clear_results]
    rw [htac, List.count_cons_self, count_true_eq_zero _ hrest]

/-- Witness for C4 on a 64-bit kernel with `BH_PrivateStart = 16`: the buffer is tagged,
consumed, dirtied again (`BH_Dirty` is bit 1) and tested twice more. -/
theorem zeronew_consumed_once_witness :
    test_clear_results ⟨64, 16⟩
      [.test_clear_zeronew, .set_framework_bit 1, .test_clear_zeronew, .test_zeronew,
       .test_clear_zeronew] (set_buffer_zeronew ⟨64, 16⟩ ⟨5⟩) = [true, false, false] ∧
    zero_fills ⟨64, 16⟩
      (bh_op.test_clear_zeronew :: [.set_framework_bit 1, .test_clear_zeronew, .test_zeronew,
        .test_clear_zeronew]) (set_buffer_zeronew ⟨64, 16⟩ ⟨5⟩) = 1 :=
  ⟨by decide,
   (zeronew_consumed_once ⟨64, 16⟩ ⟨5⟩
      [.set_framework_bit 1, .test_clear_zeronew, .test_zeronew, .test_clear_zeronew]
      (by decide) (by decide)).2.2.2.2⟩

/-- C10: the Zeronew tag operations change at most bit `BH_Zeronew` of the buffer
state word and `buffer_zeronew` changes nothing. `BH_Zeronew` is `BH_PrivateStart`, so
it differs from every framework-defined state bit (numbered below `BH_PrivateStart`),
and every other bit `k` of the word reads the same before and after each operation. -/
theorem zeronew_ops_frame (K : KernelConfig) (bh : buffer_head) (k : Nat)
    (hbit : K.BH_PrivateStart < K.BITS_PER_LONG) (hk : k < K.BITS_PER_LONG)
    (hne : k ≠ BH_Zeronew K) :
    BH_Zeronew K = K.BH_PrivateStart ∧
    (∀ j, j < K.BH_PrivateStart → j ≠ BH_Zeronew K ∧ j < K.BITS_PER_LONG) ∧
    test_bit K k (set_buffer_zeronew K bh).b_state = test_bit K k bh.b_state ∧
    test_bit K k (clear_buffer_zeronew K bh).b_state = test_bit K k bh.b_state ∧
    test_bit K k (test_set_buffer_zeronew K bh).2.b_state = test_bit K k bh.b_state ∧
    test_bit K k (test_clear_buffer_zeronew K bh).2.b_state = test_bit K k bh.b_state ∧
    (buffer_zeronew K bh).2 = bh := by
  have hz : BH_Zeronew K < K.BITS_PER_LONG := hbit
  have hne2 : ¬ BH_Zeronew K = k := fun e => hne e.symm
  refine ⟨rfl, ?_, ?_, ?_, ?_, ?_, rfl⟩
  · intro j hj
    exact ⟨by unfold BH_Zeronew; omega, lt_trans hj hbit⟩
  · simp only [set_buffer_zeronew]
    rw [test_bit_eq K _ _ hk, test_bit_eq K _ _ hk, set_bit_testBit K _ _ _ hz]
    simp [hne2]
  · simp only [clear_buffer_zeronew]
    rw [test_bit_eq K _ _ hk, test_bit_eq K _ _ hk, clear_bit_testBit K _ _ _ hz hk]
    simp [hne2]
  · simp only [test_set_buffer_zeronew, test_and_set_bit_snd]
    rw [test_bit_eq K _ _ hk, test_bit_eq K _ _ hk, set_bit_testBit K _ _ _ hz]
    simp [hne2]
  · simp only [test_clear_buffer_zeronew, test_and_clear_bit_snd]
    rw [test_bit_eq K _ _ hk, test_bit_eq K _ _ hk, clear_bit_testBit K _ _ _ hz hk]
    simp [hne2]

/-- Witness for C10 on a 64-bit kernel with `BH_PrivateStart = 16`, state word
`0b100011` and the framework bit 1 (`BH_Dirty`). -/
theorem zeronew_ops_frame_witness :
    (16 < 64 ∧ 1 < 64 ∧ 1 ≠ BH_Zeronew ⟨64, 16⟩) ∧
    (set_buffer_zeronew ⟨64, 16⟩ ⟨35⟩).b_state = 65571 ∧
    test_bit ⟨64, 16⟩ 1 (test_clear_buffer_zeronew ⟨64, 16⟩ ⟨65571⟩).2.b_state =
      test_bit ⟨64, 16⟩ 1 65571 :=
  ⟨by decide, by decide,
   (zeronew_ops_frame ⟨64, 16⟩ ⟨65571⟩ 1 (by decide) (by decide) (by decide)).2.2.2.2.2.1⟩

/-! ## The three views of the combined allocation -/

theorem wsub_wadd (w u a : Nat) : wsub w (wadd w u a) a = u % 2 ^ w := by
  unfold wsub wadd
  have hN : 0 < 2 ^ w := Nat.pos_pow_of_pos _ (by norm_num)
  generalize 2 ^ w = N at *
  have ha : a % N < N := Nat.mod_lt _ hN
  have h1 : ((u + a) % N + N - a % N) + a % N = (u + a) % N + N := by omega
  have h2 : ((u + a) % N + N - a % N) + a % N ≡ u + a % N [MOD N] := by
    rw [h1]
    calc (u + a) % N + N ≡ (u + a) % N [MOD N] := by simp [Nat.ModEq]
      _ ≡ u + a [MOD N] := Nat.mod_modEq _ _
      _ ≡ u + a % N [MOD N] := Nat.ModEq.add_left u (Nat.mod_modEq a N).symm
  exact Nat.ModEq.add_right_cancel' _ h2

/-- Stepping from the member at offset `a` of the allocation at `u` to its member at
offset `b`: `&(container_of(&u->a, T, a)->b) = &u->b`. -/
theorem member_of_container (w u a b : Nat) :
    member_addr w (container_of w (member_addr w u a) a) b = member_addr w u b := by
  unfold container_of member_addr
  rw [wsub_wadd]
  unfold wadd
  exact Nat.mod_add_mod u (2 ^ w) b

theorem member_addr_eq_iff (w u v a : Nat) :
    member_addr w u a = member_addr w v a ↔ u % 2 ^ w = v % 2 ^ w := by
  unfold member_addr wadd
  constructor
  · intro h
    exact Nat.ModEq.add_right_cancel' a h
  · intro h
    exact Nat.ModEq.add_right a h

theorem ANTFS_NI_view (w : Nat) (L : Layout) (u : Nat) :
    ANTFS_NI w L (inode_view w L u) = ni_view w L u :=
  member_of_container w u (offsetof_inode L) (offsetof_ni L)

theorem ANTFS_I_view (w : Nat) (L : Layout) (u : Nat) :
    ANTFS_I w L (ni_view w L u) = inode_view w L u :=
  member_of_container w u (offsetof_ni L) (offsetof_inode L)

theorem ANTFS_NA_view (w : Nat) (L : Layout) (u : Nat) :
    ANTFS_NA w L (ni_view w L u) = na_view w L u :=
  member_of_container w u (offsetof_ni L) (offsetof_na L)

/-- C1: for every combined allocation `u`, converting between the generic view and the
format-inode view is a round trip in both directions:
`ANTFS_I(ANTFS_NI(&u->inode)) = &u->inode` and `ANTFS_NI(ANTFS_I(&u->ni)) = &u->ni`. -/
theorem inode_views_round_trip (w : Nat) (L : Layout) (u : Nat) :
    ANTFS_I w L (ANTFS_NI w L (inode_view w L u)) = inode_view w L u ∧
    ANTFS_NI w L (ANTFS_I w L (ni_view w L u)) = ni_view w L u := by
  constructor
  · rw [ANTFS_NI_view, ANTFS_I_view]
  · rw [ANTFS_I_view, ANTFS_NI_view]

/-- C2: for every combined allocation `u` the three accessors project onto fields of
that same allocation: `ANTFS_NI(&u.inode) = &u.ni`, `ANTFS_I(&u.ni) = &u.inode`,
`ANTFS_NA(&u.ni) = &u.na`; and `ANTFS_NA(ANTFS_NI(&u.inode))` is `&u.na`, never
the default attribute `&v.na` of another allocation `v`. -/
theorem accessors_project_same_allocation (w : Nat) (L : Layout) (u v : Nat)
    (hu : u < 2 ^ w) (hv : v < 2 ^ w) (huv : u ≠ v) :
    ANTFS_NI w L (inode_view w L u) = ni_view w L u ∧
    ANTFS_I w L (ni_view w L u) = inode_view w L u ∧
    ANTFS_NA w L (ni_view w L u) = na_view w L u ∧
    ANTFS_NA w L (ANTFS_NI w L (inode_view w L u)) = na_view w L u ∧
    ANTFS_NA w L (ANTFS_NI w L (inode_view w L u)) ≠ na_view w L v := by
  refine ⟨ANTFS_NI_view w L u, ANTFS_I_view w L u, ANTFS_NA_view w L u, ?_, ?_⟩
  · rw [ANTFS_NI_view, ANTFS_NA_view]
  · rw [ANTFS_NI_view, ANTFS_NA_view]
    intro h
    have h2 := (member_addr_eq_iff w u v (offsetof_na L)).mp h
    rw [Nat.mod_eq_of_lt hu, Nat.mod_eq_of_lt hv] at h2
    exact huv h2

/-- Witness for C2 on 64-bit addresses, with member sizes 600, 400 and 200 bytes
aligned to 8, and allocations at 4096 and 8192. -/
theorem accessors_project_same_allocation_witness :
    (4096 < 2 ^ 64 ∧ 8192 < 2 ^ 64 ∧ 4096 ≠ 8192) ∧
    ANTFS_NA 64 ⟨600, 8, 400, 8, 200, 8⟩
      (ANTFS_NI 64 ⟨600, 8, 400, 8, 200, 8⟩ (inode_view 64 ⟨600, 8, 400, 8, 200, 8⟩ 4096)) =
        5096 ∧
    ANTFS_NA 64 ⟨600, 8, 400, 8, 200, 8⟩
      (ANTFS_NI 64 ⟨600, 8, 400, 8, 200, 8⟩ (inode_view 64 ⟨600, 8, 400, 8, 200, 8⟩ 4096)) ≠
        na_view 64 ⟨600, 8, 400, 8, 200, 8⟩ 8192 :=
  ⟨by norm_num, by decide,
   (accessors_project_same_allocation 64 ⟨600, 8, 400, 8, 200, 8⟩ 4096 8192
      (by norm_num) (by norm_num) (by norm_num)).2.2.2.2⟩

/-- C3: each view determines the other two. On views of combined allocations `u`, `v`
the accessors are injective: equal `ANTFS_NI` of two generic views means equal generic
views, equal `ANTFS_I` of two format-inode views means equal format-inode views, equal
`ANTFS_NA` of two format-inode views means equal format-inode views; and the
format-inode view and the generic view are recovered from the default-attribute view
by a constant offset. -/
theorem views_determine_each_other (w : Nat) (L : Layout) (u v : Nat) :
    (ANTFS_NI w L (inode_view w L u) = ANTFS_NI w L (inode_view w L v) ↔
      inode_view w L u = inode_view w L v) ∧
    (ANTFS_I w L (ni_view w L u) = ANTFS_I w L (ni_view w L v) ↔
      ni_view w L u = ni_view w L v) ∧
    (ANTFS_NA w L (ni_view w L u) = ANTFS_NA w L (ni_view w L v) ↔
      ni_view w L u = ni_view w L v) ∧
    ni_view w L u =
      member_addr w (container_of w (na_view w L u) (offsetof_na L)) (offsetof_ni L) ∧
    inode_view w L u =
      member_addr w (container_of w (na_view w L u) (offsetof_na L)) (offsetof_inode L) := by
  refine ⟨?_, ?_, ?_, ?_, ?_⟩
  · rw [ANTFS_NI_view, ANTFS_NI_view]
    unfold ni_view inode_view
    rw [member_addr_eq_iff, member_addr_eq_iff]
  · rw [ANTFS_I_view, ANTFS_I_view]
    unfold ni_view inode_view
    rw [member_addr_eq_iff, member_addr_eq_iff]
  · rw [ANTFS_NA_view, ANTFS_NA_view]
    unfold ni_view na_view
    rw [member_addr_eq_iff, member_addr_eq_iff]
  · exact (member_of_container w u (offsetof_na L) (offsetof_ni L)).symm
  · exact (member_of_container w u (offsetof_na L) (offsetof_inode L)).symm

/-! ## Lock classes -/

/-- C7: the lock classes are numbered `NI_MUTEX_NORMAL = 0`, `NI_MUTEX_PARENT = 1`,
`NI_MUTEX_PARENT2 = 2`; they are pairwise distinct, and the documented locking order
normal -> parent -> parent2 is exactly the strictly increasing order of these numbers,
which is a total order on the three classes. -/
theorem lock_class_numbering :
    antfs_inode_mutex_lock_class.NI_MUTEX_NORMAL.val = 0 ∧
    antfs_inode_mutex_lock_class.NI_MUTEX_PARENT.val = 1 ∧
    antfs_inode_mutex_lock_class.NI_MUTEX_PARENT2.val = 2 ∧
    (∀ a b : antfs_inode_mutex_lock_class, a.val = b.val ↔ a = b) ∧
    (∀ a b : antfs_inode_mutex_lock_class, locked_before a b = true ↔ a.val < b.val) ∧
    (∀ a b : antfs_inode_mutex_lock_class, a.val < b.val ∨ a = b ∨ b.val < a.val) := by
  refine ⟨rfl, rfl, rfl, ?_, ?_, ?_⟩
  · intro a b
    cases a <;> cases b <;> decide
  · intro a b
    cases a <;> cases b <;> decide
  · intro a b
    cases a <;> cases b <;> decide

/-! ## Record allocator -/

theorem burst_size : 1 <<< MFT_DATA_BURST_ALLOC_SHIFT = 128 := by decide

theorem record_count_after_cases (capacity count : Nat) :
    record_count_after capacity count = count ∨
    record_count_after capacity count = count + 128 := by
  unfold record_count_after extend_metadata
  rw [burst_size]
  by_cases h : count + 128 ≤ capacity
  · right
    simp [h]
  · left
    simp [h]

theorem extend_trace_offsets :
    ∀ (capacities : List Nat) (base : Nat),
      ∀ c ∈ extend_trace capacities base, ∃ k, c = base + k * 128 := by
  intro capacities
  induction capacities with
  | nil => intro base c hc; simp [extend_trace] at hc
  | cons capacity rest ih =>
    intro base c hc
    simp only [extend_trace, List.mem_cons] at hc
    rcases hc with hc | hc
    · rcases record_count_after_cases capacity base with h | h
      · exact ⟨0, by omega⟩
      · exact ⟨1, by omega⟩
    · obtain ⟨k, hk⟩ := ih _ c hc
      rcases record_count_after_cases capacity base with h | h
      · exact ⟨k, by omega⟩
      · exact ⟨k + 1, by omega⟩

theorem extend_trace_sorted :
    ∀ (capacities : List Nat) (base : Nat),
      List.Sorted (· ≤ ·) (base :: extend_trace capacities base) := by
  intro capacities
  induction capacities with
  | nil => intro base; simp [extend_trace]
  | cons capacity rest ih =>
    intro base
    rw [List.sorted_cons]
    constructor
    · intro c hc
      obtain ⟨k, hk⟩ := extend_trace_offsets (capacity :: rest) base c hc
      omega
    · simpa [extend_trace] using ih (record_count_after capacity base)

/-- C6: for every sequence of `extend_metadata` calls the record count after each call
is the initial count plus a multiple of `1 << MFT_DATA_BURST_ALLOC_SHIFT` = 128, and the
counts are non-decreasing; a call that succeeds adds one whole burst of 128 records,
more than the single record that is needed, and it succeeds whenever the volume can
hold the burst. -/
theorem extend_metadata_bursts (capacities : List Nat) (base : Nat) :
    1 <<< MFT_DATA_BURST_ALLOC_SHIFT = 128 ∧
    (∀ c ∈ extend_trace capacities base,
      base ≤ c ∧ (c - base) % (1 <<< MFT_DATA_BURST_ALLOC_SHIFT) = 0) ∧
    List.Sorted (· ≤ ·) (base :: extend_trace capacities base) ∧
    (extend_trace capacities base).length = capacities.length ∧
    (∀ capacity count n : Nat,
      extend_metadata capacity count = .ok n → n = count + 128 ∧ count + 1 < n) ∧
    (∀ capacity count : Nat,
      count + 128 ≤ capacity → extend_metadata capacity count = .ok (count + 128)) := by
  refine ⟨burst_size, ?_, extend_trace_sorted capacities base, ?_, ?_, ?_⟩
  · intro c hc
    obtain ⟨k, hk⟩ := extend_trace_offsets capacities base c hc
    rw [burst_size]
    constructor
    · omega
    · have : c - base = k * 128 := by omega
      rw [this]
      exact Nat.mul_mod_left k 128
  · induction capacities generalizing base with
    | nil => rfl
    | cons capacity rest ih => simp [extend_trace, ih]
  · intro capacity count n h
    unfold extend_metadata at h
    rw [burst_size] at h
    split at h
    · simp only [Except.ok.injEq] at h
      omega
    · exact absurd h (by simp)
  · intro capacity count h
    unfold extend_metadata
    rw [burst_size]
    simp [h]

theorem find_free_bounds (bitmap : List Bool) (lo hi r : Nat)
    (h : find_free bitmap lo hi = some r) : lo ≤ r ∧ r < hi := by
  unfold find_free at h
  have hmem := List.mem_of_find?_eq_some h
  rw [List.mem_range'_1] at hmem
  omega

/-- One creation from a state whose search position is at or above the reserved
range hands out a record at or above it and leaves such a state. -/
theorem create_record_reserved (capacity : Nat) (s s' : mft_state) (r : Nat)
    (hs : RESERVED_MFT_RECORDS ≤ s.data_pos)
    (h : create_record capacity s = .ok (r, s')) :
    RESERVED_MFT_RECORDS ≤ r ∧ RESERVED_MFT_RECORDS ≤ s'.data_pos := by
  unfold create_record at h
  split at h
  · rename_i r1 h1
    have hb := find_free_bounds _ _ _ _ h1
    simp only [Except.ok.injEq, Prod.mk.injEq] at h
    obtain ⟨rfl, rfl⟩ := h
    simp only [take_record]
    omega
  · split at h
    · rename_i r2 h2
      have hb := find_free_bounds _ _ _ _ h2
      simp only [Except.ok.injEq, Prod.mk.injEq] at h
      obtain ⟨rfl, rfl⟩ := h
      simp only [take_record]
      omega
    · split at h
      · exact absurd h (by simp)
      · rename_i n hn
        simp only at h
        split at h
        · rename_i r3 h3
          have hb := find_free_bounds _ _ _ _ h3
          simp only [Except.ok.injEq, Prod.mk.injEq] at h
          obtain ⟨rfl, rfl⟩ := h
          simp only [take_record]
          omega
        · exact absurd h (by simp)

theorem mft_run_reserved :
    ∀ (ops : List mft_op) (s : mft_state), RESERVED_MFT_RECORDS ≤ s.data_pos →
      ∀ r ∈ mft_run ops s, RESERVED_MFT_RECORDS ≤ r := by
  intro ops
  induction ops with
  | nil => intro s _ r hr; simp [mft_run] at hr
  | cons o ops ih =>
    intro s hs r hr
    cases o with
    | create capacity =>
      simp only [mft_run] at hr
      split at hr
      · rename_i r1 s1 h1
        have hc := create_record_reserved capacity s s1 r1 hs h1
        rcases List.mem_cons.mp hr with hr | hr
        · rw [hr]; exact hc.1
        · exact ih s1 hc.2 r hr
      · exact ih s hs r hr
    | delete d =>
      simp only [mft_run] at hr
      exact ih (delete_record s d) hs r hr

/-- C5: no user creation ever returns a record number below
`RESERVED_MFT_RECORDS` = 24: whatever bitmap the volume is mounted with and whatever
sequence of creations and deletions follows, every record number handed out is at
least 24. -/
theorem user_creation_skips_reserved (bitmap : List Bool) (ops : List mft_op) :
    RESERVED_MFT_RECORDS = 24 ∧
    ∀ r ∈ mft_run ops (mft_mount bitmap), 24 ≤ r :=
  ⟨rfl, mft_run_reserved ops (mft_mount bitmap) (Nat.le_refl _)⟩

set_option maxRecDepth 20000 in
/-- Sample run of the allocator: a volume mounted with 26 records all in use is extended
by a burst; records 26 and 27 are handed out, records 24 and 3 are deleted, the search
continues at 28 and 29. -/
theorem mft_run_sample :
    mft_run [.create 1000, .create 1000, .delete 24, .delete 3, .create 1000, .create 1000]
      (mft_mount (List.replicate 26 true)) = [26, 27, 28, 29] := by
  decide

/-- Sample trace of extensions from 24 records: a call fails when the volume cannot hold
another burst and leaves the count as it was. -/
theorem extend_trace_sample :
    extend_trace [1000, 100, 300, 500] 24 = [152, 152, 280, 408] := by
  decide

end Antfs

